import Mathlib

/-!
# Verification of the paperetl JAMA XML transformation

Shallow embedding of `src/python/paperetl/file/jama.py` and
`src/python/paperetl/schema/article.py`.  XML trees are modelled as an
inductive type, BeautifulSoup queries as recursive tree walks, Python
exceptions as an `Except` error type, and the generator `JAMA.parse` as a
function returning the list of yielded articles together with the exception
(if any) that aborted iteration.
-/

/-- Python exception kinds that the embedded code can raise. -/
inductive PyError where
  | typeError
  | attributeError
  | indexError
  | valueError
  | arithmeticError
deriving DecidableEq, Repr

/-! ## Text Normalizer: `JAMA.clean` (jama.py lines 109-123)

`clean` replaces newlines with spaces, then `re.sub(r"\s+", " ", text)`
collapses every maximal run of whitespace to one space, then `.strip()`
removes leading/trailing whitespace.  Characters are modelled as `Char`,
strings as their `List Char` data; `pyWS` models the ASCII portion of
Python's `\s` class (and of `str.strip`'s default trim set). -/

/-- The ASCII whitespace characters matched by Python's regex class `\s`. -/
def pyWS (c : Char) : Bool :=
  c = ' ' || c = '\t' || c = '\n' || c = '\r' || c = '\x0b' || c = '\x0c'

/-- `text.replace("\n", " ")`. -/
def replaceNL (l : List Char) : List Char :=
  l.map (fun c => if c = '\n' then ' ' else c)

/-- `re.sub(r"\s+", " ", text)`: each maximal nonempty run of whitespace
characters becomes a single space (all but the last character of the run
are dropped, the last becomes `' '`). -/
def collapseWS : List Char → List Char
  | [] => []
  | [c] => if pyWS c then [' '] else [c]
  | a :: b :: rest =>
    if pyWS a && pyWS b then collapseWS (b :: rest)
    else (if pyWS a then ' ' else a) :: collapseWS (b :: rest)

/-- `.strip()` on the right: drop trailing whitespace. -/
def dropTrailWS (l : List Char) : List Char :=
  (l.reverse.dropWhile pyWS).reverse

/-- `.strip()`: drop leading and trailing whitespace. -/
def stripWS (l : List Char) : List Char :=
  dropTrailWS (l.dropWhile pyWS)

/-- `JAMA.clean` on character lists. -/
def cleanL (l : List Char) : List Char :=
  stripWS (collapseWS (replaceNL l))

/-- `JAMA.clean` (jama.py lines 109-123). -/
def JAMA.clean (s : String) : String :=
  ⟨cleanL s.data⟩

/-! ### Lemmas about `clean` -/

/-- Every character of `collapseWS l` is a space or a non-whitespace
character of `l`. -/
theorem mem_collapseWS {c : Char} {l : List Char} :
    c ∈ collapseWS l → c = ' ' ∨ (c ∈ l ∧ pyWS c = false) := by
  induction l using collapseWS.induct with
  | case1 => intro h; simp [collapseWS] at h
  | case2 d hd =>
    intro h
    rw [collapseWS, if_pos hd] at h
    simp at h
    exact Or.inl h
  | case3 d hd =>
    intro h
    rw [collapseWS, if_neg hd] at h
    simp at h
    subst h
    exact Or.inr ⟨List.mem_singleton_self _, by simpa using hd⟩
  | case4 a b rest hab ih =>
    intro h
    rw [collapseWS, if_pos hab] at h
    rcases ih h with h1 | ⟨h2, h3⟩
    · exact Or.inl h1
    · exact Or.inr ⟨List.mem_cons_of_mem _ h2, h3⟩
  | case5 a b rest hab ih =>
    intro h
    rw [collapseWS, if_neg hab] at h
    rcases List.mem_cons.mp h with h1 | h2
    · by_cases hwa : pyWS a = true
      · rw [if_pos hwa] at h1
        exact Or.inl h1
      · rw [if_neg hwa] at h1
        subst h1
        exact Or.inr ⟨List.mem_cons_self _ _, by simpa using hwa⟩
    · rcases ih h2 with h3 | ⟨h4, h5⟩
      · exact Or.inl h3
      · exact Or.inr ⟨List.mem_cons_of_mem _ h4, h5⟩

/-- A non-whitespace head survives `collapseWS` as the head. -/
theorem collapseWS_cons_head {b : Char} (rest : List Char) (hb : pyWS b = false) :
    ∃ tl, collapseWS (b :: rest) = b :: tl := by
  cases rest with
  | nil => exact ⟨[], by simp [collapseWS, hb]⟩
  | cons c rest' =>
    refine ⟨collapseWS (c :: rest'), ?_⟩
    rw [collapseWS, if_neg (by simp [hb]), if_neg (by simp [hb])]

/-- The head of `l.dropWhile pyWS` is not whitespace. -/
theorem head_dropWhile_false {l : List Char} {c : Char}
    (h : (l.dropWhile pyWS).head? = some c) : pyWS c = false := by
  have h0 := List.head?_dropWhile_not pyWS l
  rw [h] at h0
  simpa using h0

/-- The adjacent-pair property: no two consecutive whitespace characters. -/
def NoWSRun (l : List Char) : Prop :=
  List.Chain' (fun a b => ¬(pyWS a = true ∧ pyWS b = true)) l

theorem noWSRun_collapseWS (l : List Char) : NoWSRun (collapseWS l) := by
  induction l using collapseWS.induct with
  | case1 => simp [collapseWS, NoWSRun]
  | case2 d hd =>
    rw [collapseWS, if_pos hd]
    simp [NoWSRun]
  | case3 d hd =>
    rw [collapseWS, if_neg hd]
    simp [NoWSRun]
  | case4 a b rest hab ih =>
    rw [collapseWS, if_pos hab]
    exact ih
  | case5 a b rest hab ih =>
    rw [collapseWS, if_neg hab]
    refine List.chain'_cons'.mpr ⟨?_, ih⟩
    intro y hy
    intro ⟨hwh, hwy⟩
    by_cases hwa : pyWS a = true
    · -- the head emitted is a space, but then `b` is not whitespace and
      -- survives as the head of the recursive result
      have hb : pyWS b = false := by
        rcases Bool.eq_false_or_eq_true (pyWS b) with hb | hb
        · exact absurd (by simp [hwa, hb] : (pyWS a && pyWS b) = true) hab
        · exact hb
      rcases collapseWS_cons_head rest hb with ⟨tl, htl⟩
      rw [htl] at hy
      simp only [List.head?_cons, Option.mem_some_iff] at hy
      subst hy
      rw [hb] at hwy
      exact Bool.false_ne_true hwy
    · rw [if_neg hwa] at hwh
      exact hwa hwh

/-- `collapseWS` fixes a list in which every whitespace character is a plain
space and no two whitespace characters are adjacent. -/
theorem collapseWS_fixed (l : List Char) :
    (∀ c ∈ l, pyWS c = true → c = ' ') → NoWSRun l → collapseWS l = l := by
  induction l using collapseWS.induct with
  | case1 => intro _ _; simp [collapseWS]
  | case2 d hd =>
    intro hsp _
    rw [collapseWS, if_pos hd, hsp d (List.mem_singleton_self _) hd]
  | case3 d hd =>
    intro _ _
    rw [collapseWS, if_neg hd]
  | case4 a b rest hab ih =>
    intro _ hrun
    exfalso
    have hrel := List.chain'_cons.mp hrun |>.1
    simp at hab
    exact hrel hab
  | case5 a b rest hab ih =>
    intro hsp hrun
    rw [collapseWS, if_neg hab]
    have htl := ih (fun d hd => hsp d (List.mem_cons_of_mem _ hd)) (List.Chain'.tail hrun)
    rw [htl]
    by_cases hwa : pyWS a = true
    · rw [if_pos hwa, hsp a (List.mem_cons_self _ _) hwa]
    · rw [if_neg hwa]

/-- `stripWS` returns a sublist (in fact an infix) of its input. -/
theorem stripWS_sublist (l : List Char) : (stripWS l).Sublist l := by
  unfold stripWS dropTrailWS
  have h1 : ((l.dropWhile pyWS).reverse.dropWhile pyWS).Sublist (l.dropWhile pyWS).reverse :=
    List.dropWhile_sublist pyWS
  have h2 := h1.reverse
  simp at h2
  exact h2.trans (List.dropWhile_sublist pyWS)

theorem noWSRun_reverse {l : List Char} (h : NoWSRun l) : NoWSRun l.reverse := by
  unfold NoWSRun at *
  rw [List.chain'_reverse]
  exact h.imp (fun {a b} hab ⟨x, y⟩ => hab ⟨y, x⟩)

theorem noWSRun_dropWhile {l : List Char} (h : NoWSRun l) :
    NoWSRun (l.dropWhile pyWS) := by
  induction l with
  | nil => simpa using h
  | cons c rest ih =>
    by_cases hc : pyWS c = true
    · rw [List.dropWhile_cons_of_pos (by simpa using hc)]
      exact ih (List.Chain'.tail h)
    · rw [List.dropWhile_cons_of_neg (by simpa using hc)]
      exact h

theorem noWSRun_stripWS {l : List Char} (h : NoWSRun l) : NoWSRun (stripWS l) := by
  unfold stripWS dropTrailWS
  exact noWSRun_reverse (noWSRun_dropWhile (noWSRun_reverse (noWSRun_dropWhile h)))

theorem dropWhile_eq_self_of_head {l : List Char}
    (h : ∀ c, l.head? = some c → pyWS c = false) : l.dropWhile pyWS = l := by
  rcases l with _ | ⟨c, rest⟩
  · simp
  · have := h c (by simp)
    simp [List.dropWhile, this]

/-- Leading character of `stripWS l` is not whitespace. -/
theorem stripWS_head {l : List Char} {c : Char}
    (h : (stripWS l).head? = some c) : pyWS c = false := by
  unfold stripWS dropTrailWS at h
  rcases hd : (l.dropWhile pyWS) with _ | ⟨e, tail⟩
  · rw [hd] at h; simp at h
  · have he : pyWS e = false := head_dropWhile_false (by rw [hd]; simp)
    rw [hd] at h
    rcases hrd : ((e :: tail).reverse.dropWhile pyWS).reverse with _ | ⟨f, ftail⟩
    · rw [hrd] at h; simp at h
    · rw [hrd] at h
      simp at h
      subst h
      -- the reverse trick only removes a suffix, so the head is preserved
      have hpre : ((e :: tail).reverse.dropWhile pyWS).reverse.IsPrefix (e :: tail) := by
        have hsuf : ((e :: tail).reverse.dropWhile pyWS).IsSuffix (e :: tail).reverse :=
          List.dropWhile_suffix pyWS
        rcases hsuf with ⟨pre, hpre⟩
        refine ⟨pre.reverse, ?_⟩
        have := congrArg List.reverse hpre
        simpa using this
      rcases hpre with ⟨suf, hsuf⟩
      rw [hrd] at hsuf
      rcases hsuf
      exact he

/-- Trailing character of `stripWS l` is not whitespace. -/
theorem stripWS_last {l : List Char} {c : Char}
    (h : (stripWS l).getLast? = some c) : pyWS c = false := by
  unfold stripWS dropTrailWS at h
  rw [List.getLast?_reverse] at h
  exact head_dropWhile_false h

/-- `stripWS` fixes a list with non-whitespace head and last. -/
theorem stripWS_fixed (l : List Char)
    (hh : ∀ c, l.head? = some c → pyWS c = false)
    (hl : ∀ c, l.getLast? = some c → pyWS c = false) : stripWS l = l := by
  unfold stripWS dropTrailWS
  rw [dropWhile_eq_self_of_head hh]
  have : l.reverse.dropWhile pyWS = l.reverse := by
    apply dropWhile_eq_self_of_head
    intro c hc
    rw [List.head?_reverse] at hc
    exact hl c hc
  rw [this, List.reverse_reverse]

/-- `replaceNL` fixes a list without newlines. -/
theorem replaceNL_fixed (l : List Char) (h : '\n' ∉ l) : replaceNL l = l := by
  unfold replaceNL
  have step : ∀ c ∈ l, (if c = '\n' then ' ' else c) = id c := by
    intro c hc
    have : c ≠ '\n' := fun habs => h (habs ▸ hc)
    simp [this]
  rw [List.map_congr_left step, List.map_id]

/-- No newline survives `cleanL`. -/
theorem cleanL_no_newline (l : List Char) : '\n' ∉ cleanL l := by
  intro h
  unfold cleanL at h
  have h2 := (stripWS_sublist _).mem h
  rcases mem_collapseWS h2 with h3 | ⟨_, h5⟩
  · exact absurd h3 (by decide)
  · exact absurd h5 (by simp [pyWS])

/-- Every whitespace character in `cleanL l` is a plain space. -/
theorem cleanL_ws_space (l : List Char) :
    ∀ c ∈ cleanL l, pyWS c = true → c = ' ' := by
  intro c hc hw
  unfold cleanL at hc
  have h2 := (stripWS_sublist _).mem hc
  rcases mem_collapseWS h2 with h3 | ⟨_, h5⟩
  · exact h3
  · rw [hw] at h5; exact absurd h5 (by simp)

theorem cleanL_noWSRun (l : List Char) : NoWSRun (cleanL l) :=
  noWSRun_stripWS (noWSRun_collapseWS _)

theorem cleanL_head {l : List Char} {c : Char}
    (h : (cleanL l).head? = some c) : pyWS c = false := stripWS_head h

theorem cleanL_last {l : List Char} {c : Char}
    (h : (cleanL l).getLast? = some c) : pyWS c = false := stripWS_last h

/-- Idempotence of the character-level normalizer. -/
theorem cleanL_idem (l : List Char) : cleanL (cleanL l) = cleanL l := by
  have hnl : replaceNL (cleanL l) = cleanL l :=
    replaceNL_fixed _ (cleanL_no_newline l)
  have hcw : collapseWS (cleanL l) = cleanL l :=
    collapseWS_fixed _ (cleanL_ws_space l) (cleanL_noWSRun l)
  have hst : stripWS (cleanL l) = cleanL l :=
    stripWS_fixed _ (fun c hc => cleanL_head hc) (fun c hc => cleanL_last hc)
  show stripWS (collapseWS (replaceNL (cleanL l))) = cleanL l
  rw [hnl, hcw, hst]

/-- **C6**: For every string `x`, `JAMA.clean x` contains no newline character
and no run of two or more consecutive whitespace characters, has no leading
or trailing whitespace, and `clean` is idempotent:
`clean (clean x) = clean x`. -/
theorem c6_clean_normal_form (x : String) :
    '\n' ∉ (JAMA.clean x).data
    ∧ List.Chain' (fun a b => ¬(pyWS a = true ∧ pyWS b = true)) (JAMA.clean x).data
    ∧ (∀ c, (JAMA.clean x).data.head? = some c → pyWS c = false)
    ∧ (∀ c, (JAMA.clean x).data.getLast? = some c → pyWS c = false)
    ∧ JAMA.clean (JAMA.clean x) = JAMA.clean x := by
  refine ⟨cleanL_no_newline _, cleanL_noWSRun _, fun c hc => cleanL_head hc,
    fun c hc => cleanL_last hc, ?_⟩
  show (⟨cleanL (JAMA.clean x).data⟩ : String) = JAMA.clean x
  show (⟨cleanL (cleanL x.data)⟩ : String) = ⟨cleanL x.data⟩
  rw [cleanL_idem]

/-! ## XML document model

Elements and text nodes of the parsed XML tree (the BeautifulSoup object
graph that `JAMA.parse` walks).  Attributes are irrelevant to every claim
and are omitted. -/

mutual
inductive XmlNode where
  | elem (name : String) (children : XmlForest)
  | text (s : String)
inductive XmlForest where
  | nil
  | cons (head : XmlNode) (tail : XmlForest)
end

/-- Build a forest from a list of nodes. -/
def XmlForest.ofList : List XmlNode → XmlForest
  | [] => .nil
  | x :: xs => .cons x (XmlForest.ofList xs)

/-- The children of a forest as a list. -/
def XmlForest.toList : XmlForest → List XmlNode
  | .nil => []
  | .cons h t => h :: XmlForest.toList t

/-- An element node with its children given as a list. -/
def elemL (name : String) (cs : List XmlNode) : XmlNode :=
  .elem name (XmlForest.ofList cs)

theorem XmlForest.toList_ofList (l : List XmlNode) :
    (XmlForest.ofList l).toList = l := by
  induction l with
  | nil => rfl
  | cons x xs ih => simp [XmlForest.ofList, XmlForest.toList, ih]

/-- Children of a node; a text node has none. -/
def XmlNode.childrenOf : XmlNode → XmlForest
  | .elem _ cs => cs
  | .text _ => .nil

/-- `element.find_all(tag)` over a forest: all element descendants named
`tag`, in document (preorder) order. -/
def findAllL (tag : String) : XmlForest → List XmlNode
  | .nil => []
  | .cons (.text _) rest => findAllL tag rest
  | .cons (.elem n cs) rest =>
    (if n = tag then [XmlNode.elem n cs] else []) ++ findAllL tag cs ++ findAllL tag rest

/-- `element.find_all(tag)`: all proper descendants named `tag`. -/
def findAll (tag : String) (x : XmlNode) : List XmlNode :=
  findAllL tag x.childrenOf

/-- `element.find_all(tag, recursive=False)` over a forest. -/
def findTopL (tag : String) : XmlForest → List XmlNode
  | .nil => []
  | .cons (.text _) rest => findTopL tag rest
  | .cons (.elem n cs) rest =>
    (if n = tag then [XmlNode.elem n cs] else []) ++ findTopL tag rest

/-- `element.find_all(tag, recursive=False)`: direct children named `tag`. -/
def findAllTop (tag : String) (x : XmlNode) : List XmlNode :=
  findTopL tag x.childrenOf

/-- `element.find(tag)` / attribute access such as `entry.abstract`:
first matching descendant, or `None`. -/
def findFirst (tag : String) (x : XmlNode) : Option XmlNode :=
  (findAll tag x).head?

/-- Concatenated text of a forest (`element.text`). -/
def textOfL : XmlForest → String
  | .nil => ""
  | .cons (.text s) rest => s ++ textOfL rest
  | .cons (.elem _ cs) rest => textOfL cs ++ textOfL rest

/-- `element.text`: concatenation of all descendant strings. -/
def textOf : XmlNode → String
  | .text s => s
  | .elem _ cs => textOfL cs

/-- All element descendants of a forest, preorder (`tag.find_all()` with no
arguments, as produced by calling a tag object). -/
def descTagsL : XmlForest → List XmlNode
  | .nil => []
  | .cons (.text _) rest => descTagsL rest
  | .cons (.elem n cs) rest => XmlNode.elem n cs :: (descTagsL cs ++ descTagsL rest)

def descendantTags (x : XmlNode) : List XmlNode :=
  descTagsL x.childrenOf

/-- `str(tag)`: markup serialization of a forest. -/
def serializeL : XmlForest → String
  | .nil => ""
  | .cons (.text s) rest => s ++ serializeL rest
  | .cons (.elem n cs) rest =>
    "<" ++ n ++ ">" ++ serializeL cs ++ "</" ++ n ++ ">" ++ serializeL rest

def serialize : XmlNode → String
  | .text s => s
  | .elem n cs => "<" ++ n ++ ">" ++ serializeL cs ++ "</" ++ n ++ ">"

/-! ## Markup Stripper: `re.sub(CLEANR, "", x)` with `CLEANR = "<.*?>"`

A match starts at a `<` and extends (non-greedily) to the nearest following
`>`; `.` does not match a newline, so a match never spans one. -/

/-- Scan for the first `>` before any newline; return the remainder after
it when found. -/
def scanClose : List Char → Option (List Char)
  | [] => none
  | c :: rest =>
    if c = '>' then some rest
    else if c = '\n' then none
    else scanClose rest

theorem scanClose_length {l l' : List Char} (h : scanClose l = some l') :
    l'.length < l.length := by
  induction l generalizing l' with
  | nil => simp [scanClose] at h
  | cons c rest ih =>
    rw [scanClose] at h
    by_cases hc : c = '>'
    · simp [hc] at h
      subst h
      simp
    · by_cases hn : c = '\n'
      · simp [hc, hn] at h
      · simp [hc, hn] at h
        have := ih h
        simp
        omega

/-- `re.sub("<.*?>", "", text)` on character lists, by fuel recursion so
that the definition is structurally recursive (one character is consumed
per step, so fuel equal to the input length suffices; surplus fuel does
not change the result). -/
def stripFuel : Nat → List Char → List Char
  | _, [] => []
  | 0, l => l
  | fuel + 1, c :: rest =>
    if c = '<' then
      match scanClose rest with
      | some rest2 => stripFuel fuel rest2
      | none => c :: stripFuel fuel rest
    else c :: stripFuel fuel rest

/-- `re.sub("<.*?>", "", text)` on character lists. -/
def stripMarkupL (l : List Char) : List Char :=
  stripFuel l.length l

/-- `re.sub(CLEANR, "", s)` on strings. -/
def stripMarkup (s : String) : String :=
  ⟨stripMarkupL s.data⟩

/-- Python `"sep".join(list)`. -/
def joinSep (sep : String) : List String → String
  | [] => ""
  | [x] => x
  | x :: y :: rest => x ++ sep ++ joinSep sep (y :: rest)

/-- Python `str.upper()` (ASCII model). -/
def pyUpper (s : String) : String :=
  ⟨s.data.map Char.toUpper⟩

/-! ## Field Extractor: `JAMA.get` (jama.py lines 94-107) -/

/-- `JAMA.get(element, path)`: text of the first descendant matching
`path`, cleaned; `None` when there is no match. -/
def JAMA.get (element : XmlNode) (path : String) : Option String :=
  (findFirst path element).map fun e => JAMA.clean (textOf e)

/-! ## Author/Affiliation Parser: `JAMA.authors` (jama.py lines 125-152) -/

/-- Display name of one `contrib` element:
`", ".join([re.sub(CLEANR, "", str(j)) for j in author.next()])`.

`author.next` is the first child of the `contrib` tag; calling a tag object
returns all its element descendants, so each name part is the stripped
serialization of one descendant tag of that first child.  When the first
child is a string, calling it raises `TypeError` (a `NavigableString` is
not callable).  A `contrib` with no children would make `.next` refer
outside the `contrib` subtree; no claim depends on that case and it is
modelled as a failure. -/
def contribName : XmlNode → Except PyError String
  | .elem _ (.cons first _) =>
    match first with
    | .elem n cs =>
      .ok (joinSep ", " ((descendantTags (.elem n cs)).map fun j => stripMarkup (serialize j)))
    | .text _ => .error .typeError
  | _ => .error .attributeError

/-- The author loop: for each `contrib-group`, for each descendant
`contrib`, append the display name.  The first failure raises. -/
def contribNames (groups : List XmlNode) : Except PyError (List String) :=
  go (groups.flatMap fun g => findAll "contrib" g)
where
  go : List XmlNode → Except PyError (List String)
    | [] => .ok []
    | c :: rest => do
      let n ← contribName c
      let ns ← go rest
      .ok (n :: ns)

/-- `x.contents[1]` for one affiliation element: the child at index 1;
`IndexError` when there are fewer than two children. -/
def affContent : XmlNode → Except PyError XmlNode
  | .elem _ cs =>
    match cs.toList.get? 1 with
    | some c => .ok c
    | none => .error .indexError
  | .text _ => .error .attributeError

/-- The list comprehension `[x.contents[1] for x in affiliations]`:
evaluated left to right, the first failure raises. -/
def affContents : List XmlNode → Except PyError (List XmlNode)
  | [] => .ok []
  | a :: rest => do
    let c ← affContent a
    let cs ← affContents rest
    .ok (c :: cs)

/-- `"; ".join(...)` over the affiliation contents: every item must be a
string node; a tag item raises `TypeError`. -/
def joinNodes : List XmlNode → Except PyError (List String)
  | [] => .ok []
  | .text s :: rest => do
    let ss ← joinNodes rest
    .ok (s :: ss)
  | .elem _ _ :: _ => .error .typeError

/-- `JAMA.authors(elements, affiliations)` (jama.py lines 125-152):
returns `("; ".join(authors), "; ".join(affiliations))`. -/
def JAMA.authors (elements : List XmlNode) (affiliations : List XmlNode) :
    Except PyError (String × String) := do
  let names ← contribNames elements
  let contents ← affContents affiliations
  let affStrs ← joinNodes contents
  .ok (joinSep "; " names, joinSep "; " affStrs)

/-! ## Section Hierarchy Flattener: `JAMA.sections` (jama.py lines 154-215) -/

/-- Modelled from the spec: `Text.transform` lives in the repository's
`text` module, which is not part of the sources here; per section 4.9 of
the specification the joined paragraph text is "passed through the Text
Normalizer" before sentence segmentation, so the transform is modelled as
the normalizer `JAMA.clean`. -/
def Text.transform (s : String) : String :=
  JAMA.clean s

/-- Modelled from the spec: the external sentence boundary detector
(`nltk.sent_tokenize`, section 4.10 of the specification) — a deterministic
segmentation of a normalized text block into an ordered, finite sequence of
sentences; modelled as splitting after each period that is followed by a
space.  Empty input yields an empty sequence. -/
def sentSplit (acc : List Char) : List Char → List (List Char)
  | [] => if acc.isEmpty then [] else [acc.reverse]
  | '.' :: ' ' :: rest => (acc.reverse ++ ['.']) :: sentSplit [] rest
  | c :: rest => sentSplit (c :: acc) rest

def sentTokenize (s : String) : List String :=
  (sentSplit [] s.data).map fun l => ⟨l⟩

/-- Space-joined text of all paragraph descendants of a section:
`" ".join([x.text for x in sec.find_all("p")])`. -/
def paraText (sec : XmlNode) : String :=
  joinSep " " ((findAll "p" sec).map textOf)

/-- The abstract loop body (jama.py lines 172-181): one entry per `sec`
descendant of the abstract, named `"ABSTRACT\" + sec.title.text`, with the
space-joined (not sentence-split) paragraph text.  A section without a
`title` raises `AttributeError`, which the surrounding `except
AttributeError: pass` absorbs — entries appended before the failure are
kept, the rest of the abstract is dropped. -/
def abstractGo : List XmlNode → List (String × String)
  | [] => []
  | sec :: rest =>
    match findFirst "title" sec with
    | none => []
    | some t =>
      ("ABSTRACT\\" ++ textOf t, paraText sec) :: abstractGo rest

/-- Abstract handling including the `except AttributeError` for a missing
abstract element (`None.find_all` raises, absorbed as zero entries). -/
def abstractSecs : Option XmlNode → List (String × String)
  | none => []
  | some ab => abstractGo (findAll "sec" ab)

/-- Sentences of one body section:
`sent_tokenize(Text.transform(" ".join([x.text for x in ...find_all("p")])))`. -/
def secSentences (s : XmlNode) : List String :=
  sentTokenize (Text.transform (paraText s))

/-- Subsection loop of a body section that has nested sections.  The pair
`(f"{sec.title.text.upper()}\{ssec.title.text.upper()}", x)` is built once
per sentence `x`, so the title lookups only run (and can only raise
`AttributeError`) when at least one sentence exists. -/
def subGo (parent : XmlNode) : List XmlNode → Except PyError (List (String × String))
  | [] => .ok []
  | ss :: rest =>
    match secSentences ss with
    | [] => subGo parent rest
    | x :: xs =>
      match findFirst "title" parent with
      | none => .error .attributeError
      | some pt =>
        match findFirst "title" ss with
        | none => .error .attributeError
        | some st => do
          let more ← subGo parent rest
          .ok (((x :: xs).map fun sent =>
            (pyUpper (textOf pt) ++ "\\" ++ pyUpper (textOf st), sent)) ++ more)

/-- Loop over the body's direct `sec` children (jama.py lines 184-214). -/
def bodyGo : List XmlNode → Except PyError (List (String × String))
  | [] => .ok []
  | s :: rest =>
    match findAll "sec" s with
    | [] =>
      match secSentences s with
      | [] => bodyGo rest
      | x :: xs =>
        match findFirst "title" s with
        | none => .error .attributeError
        | some t => do
          let more ← bodyGo rest
          .ok (((x :: xs).map fun sent => (pyUpper (textOf t), sent)) ++ more)
    | sub1 :: subrest => do
      let entries ← subGo s (sub1 :: subrest)
      let more ← bodyGo rest
      .ok (entries ++ more)

/-- Body handling: `body.find_all("sec", recursive=False)`; a missing body
element (`None`) raises `AttributeError`, which nothing catches. -/
def bodySecs : Option XmlNode → Except PyError (List (String × String))
  | none => .error .attributeError
  | some b => bodyGo (findAllTop "sec" b)

/-- `JAMA.sections(title, abstract, body)` (jama.py lines 154-215).  The
`TITLE` entry is guarded by Python truthiness (`if title`), so both `None`
and the empty string contribute nothing. -/
def JAMA.sections (title : Option String) (abstract : Option XmlNode)
    (body : Option XmlNode) : Except PyError (List (String × String)) := do
  let t := match title with
    | some s => if s = "" then [] else [("TITLE", s)]
    | none => ([] : List (String × String))
  let bs ← bodySecs body
  .ok (t ++ abstractSecs abstract ++ bs)

/-! ## Date Interpreter (jama.py lines 42-49)

```
try:
    yr = published[-4:]
    mo = published[3:-4]
    day = published[:2]
    published = parser.parse(f"{yr}-{mo}-{day}")
except ArithmeticError:
    published = None
```
String slices never raise; slicing `None` raises `TypeError`, and
`dateutil.parser.parse` raises `ValueError` on a malformed string — neither
is an `ArithmeticError`, so only an `ArithmeticError` is absorbed. -/

/-- A calendar date (the fields of the parsed `datetime` that matter). -/
structure PDate where
  year : Nat
  month : Nat
  day : Nat
deriving DecidableEq, Repr

/-- Python slice `s[-4:]`. -/
def pyLast4 (l : List Char) : List Char := l.drop (l.length - 4)

/-- Python slice `s[:2]`. -/
def pyFirst2 (l : List Char) : List Char := l.take 2

/-- Python slice `s[3:-4]`. -/
def pyMid (l : List Char) : List Char := (l.take (l.length - 4)).drop 3

/-- Split a character list at `'-'` separators. -/
def splitDash (cur : List Char) : List Char → List (List Char)
  | [] => [cur.reverse]
  | c :: rest =>
    if c = '-' then cur.reverse :: splitDash [] rest
    else splitDash (c :: cur) rest

/-- Numeric value of a nonempty all-digit character list. -/
def digitsToNat : List Char → Option Nat
  | [] => none
  | l =>
    if l.all (fun c => c.isDigit) then
      some (l.foldl (fun n c => n * 10 + (c.toNat - 48)) 0)
    else none

/-- Modelled from the spec: the external date parser
(`dateutil.parser.parse`, an out-of-repository collaborator).  Best-effort:
it produces a calendar date from a `year-month-day` string with numeric
in-range components and raises `ValueError` on anything else. -/
def dateutilParse (s : String) : Except PyError PDate :=
  match splitDash [] s.data with
  | [y, m, d] =>
    match digitsToNat y, digitsToNat m, digitsToNat d with
    | some yn, some mn, some dn =>
      if 1 ≤ yn ∧ yn ≤ 9999 ∧ 1 ≤ mn ∧ mn ≤ 12 ∧ 1 ≤ dn ∧ dn ≤ 31 then
        .ok ⟨yn, mn, dn⟩
      else .error .valueError
    | _, _, _ => .error .valueError
  | _ => .error .valueError

/-- The whole `try/except ArithmeticError` date block.  An absent raw
string means `published` is `None` and `published[-4:]` raises `TypeError`;
a parse failure raises `ValueError`; the handler only catches
`ArithmeticError`. -/
def dateStep : Option String → Except PyError (Option PDate)
  | none => .error .typeError
  | some s =>
    let yr : String := ⟨pyLast4 s.data⟩
    let mo : String := ⟨pyMid s.data⟩
    let day : String := ⟨pyFirst2 s.data⟩
    match dateutilParse (yr ++ "-" ++ mo ++ "-" ++ day) with
    | .ok d => .ok (some d)
    | .error e => if e = .arithmeticError then .ok none else .error e

/-! ## Identifier Deriver (jama.py line 53)

`hashlib.sha1(reference.encode("utf-8")).hexdigest()`: the SHA-1 digest of
the UTF-8 encoding, rendered as 40 lowercase hex characters.  32-bit words
are modelled as `Nat` reduced modulo `2^32`. -/

/-- UTF-8 encoding of one character. -/
def utf8Char (c : Char) : List Nat :=
  let n := c.toNat
  if n < 0x80 then [n]
  else if n < 0x800 then
    [0xC0 ||| (n >>> 6), 0x80 ||| (n &&& 0x3F)]
  else if n < 0x10000 then
    [0xE0 ||| (n >>> 12), 0x80 ||| ((n >>> 6) &&& 0x3F), 0x80 ||| (n &&& 0x3F)]
  else
    [0xF0 ||| (n >>> 18), 0x80 ||| ((n >>> 12) &&& 0x3F),
     0x80 ||| ((n >>> 6) &&& 0x3F), 0x80 ||| (n &&& 0x3F)]

/-- `reference.encode("utf-8")` as a byte list. -/
def utf8Encode (s : String) : List Nat :=
  s.data.flatMap utf8Char

/-- Rotate a 32-bit word left by `n`. -/
def rotl (n x : Nat) : Nat :=
  ((x <<< n) ||| (x >>> (32 - n))) % 4294967296

/-- Big-endian bytes of `n`, `k` bytes wide. -/
def toBytesBE (k n : Nat) : List Nat :=
  (List.range k).map fun i => n / 256 ^ (k - 1 - i) % 256

/-- SHA-1 message padding: `0x80`, zeros to 56 mod 64, 8-byte bit length. -/
def sha1Pad (msg : List Nat) : List Nat :=
  let padZeros := (119 - msg.length % 64) % 64
  msg ++ [0x80] ++ List.replicate padZeros 0 ++ toBytesBE 8 (msg.length * 8)

/-- Split into 64-byte chunks (fuel recursion; at least one byte is
consumed per step, so fuel equal to the input length suffices). -/
def chunkFuel : Nat → List Nat → List (List Nat)
  | _, [] => []
  | 0, _ => []
  | fuel + 1, c :: rest => (c :: rest).take 64 :: chunkFuel fuel ((c :: rest).drop 64)

/-- Split into 64-byte chunks. -/
def chunk64 (l : List Nat) : List (List Nat) :=
  chunkFuel l.length l

/-- The sixteen 32-bit big-endian words of one 64-byte chunk. -/
def chunkWords (c : List Nat) : List Nat :=
  (List.range 16).map fun i =>
    c.getD (4 * i) 0 * 16777216 + c.getD (4 * i + 1) 0 * 65536 +
    c.getD (4 * i + 2) 0 * 256 + c.getD (4 * i + 3) 0

/-- Extend sixteen words to the eighty-word message schedule. -/
def sha1Schedule (w16 : List Nat) : List Nat :=
  (List.range 64).foldl
    (fun w _ =>
      w ++ [rotl 1 (w.getD (w.length - 3) 0 ^^^ w.getD (w.length - 8) 0 ^^^
                    w.getD (w.length - 14) 0 ^^^ w.getD (w.length - 16) 0)])
    w16

/-- One SHA-1 compression round. -/
def sha1Round (w : List Nat) (st : Nat × Nat × Nat × Nat × Nat) (i : Nat) :
    Nat × Nat × Nat × Nat × Nat :=
  let (a, b, c, d, e) := st
  let f :=
    if i < 20 then (b &&& c) ||| ((4294967295 ^^^ b) &&& d)
    else if i < 40 then b ^^^ c ^^^ d
    else if i < 60 then (b &&& c) ||| (b &&& d) ||| (c &&& d)
    else b ^^^ c ^^^ d
  let k :=
    if i < 20 then 0x5A827999
    else if i < 40 then 0x6ED9EBA1
    else if i < 60 then 0x8F1BBCDC
    else 0xCA62C1D6
  let temp := (rotl 5 a + f + e + k + w.getD i 0) % 4294967296
  (temp, a, rotl 30 b, c, d)

/-- Process one 64-byte chunk. -/
def sha1Chunk (h : Nat × Nat × Nat × Nat × Nat) (c : List Nat) :
    Nat × Nat × Nat × Nat × Nat :=
  let w := sha1Schedule (chunkWords c)
  let (a, b, cc, d, e) := (List.range 80).foldl (sha1Round w) h
  ((h.1 + a) % 4294967296, (h.2.1 + b) % 4294967296, (h.2.2.1 + cc) % 4294967296,
   (h.2.2.2.1 + d) % 4294967296, (h.2.2.2.2 + e) % 4294967296)

/-- The five 32-bit words of the SHA-1 digest of a byte sequence. -/
def sha1Words (msg : List Nat) : Nat × Nat × Nat × Nat × Nat :=
  (chunk64 (sha1Pad msg)).foldl sha1Chunk
    (0x67452301, 0xEFCDAB89, 0x98BADCFE, 0x10325476, 0xC3D2E1F0)

/-- Lowercase hexadecimal digit. -/
def hexDigitChar (n : Nat) : Char :=
  "0123456789abcdef".data.getD (n % 16) '0'

/-- Eight-character lowercase hex rendering of one 32-bit word. -/
def toHex8 (n : Nat) : List Char :=
  (List.range 8).map fun i => hexDigitChar (n / 16 ^ (7 - i))

/-- `hashlib.sha1(...).hexdigest()`. -/
def sha1Hex (msg : List Nat) : String :=
  let h := sha1Words msg
  ⟨toHex8 h.1 ++ toHex8 h.2.1 ++ toHex8 h.2.2.1 ++ toHex8 h.2.2.2.1 ++ toHex8 h.2.2.2.2⟩

/-- The uid derivation (jama.py line 53):
`hashlib.sha1(reference.encode("utf-8")).hexdigest()`. -/
def deriveUid (reference : String) : String :=
  sha1Hex (utf8Encode reference)

/-! ## Article Record (schema/article.py) -/

/-- A metadata tuple slot: a string, a parsed date, or Python `None`. -/
inductive Val where
  | str (s : String)
  | date (d : PDate)
  | vnone
deriving DecidableEq, Repr

/-- Lift an optional string into a metadata slot. -/
def Val.ofOpt : Option String → Val
  | some s => .str s
  | none => .vnone

/-- `Article` (article.py lines 5-29): metadata tuple, section list and
source, stored as given. -/
structure Article where
  metadata : List Val
  sections : List (String × String)
  source : Val

/-- Articles schema (article.py lines 10-13). -/
def ARTICLE : List String :=
  ["id", "source", "published", "publication", "authors", "affiliations",
   "affiliation", "title", "tags", "reference", "entry"]

/-- Sections schema (article.py line 15). -/
def SECTION : List String :=
  ["name", "text"]

/-- `Article.uid()` (article.py lines 31-39): `self.metadata[0]`. -/
def Article.uid (a : Article) : Option Val :=
  a.metadata.get? 0

/-- `Article.tags()` (article.py lines 41-49): `self.metadata[8]`. -/
def Article.tags (a : Article) : Option Val :=
  a.metadata.get? 8

/-- A JSON-ish dictionary value in the built article. -/
inductive Obj where
  | prim (v : Val)
  | secs (l : List (List (String × String)))
deriving DecidableEq, Repr

/-- Python dict assignment `d[k] = v` on an association list with unique
keys: replace in place, or append a new entry. -/
def dictSet (d : List (String × Obj)) (k : String) (v : Obj) :
    List (String × Obj) :=
  if d.any (fun p => p.1 = k) then
    d.map fun p => if p.1 = k then (k, v) else p
  else d ++ [(k, v)]

/-- `dict(zip(Article.SECTION, section))` for one `(name, text)` pair. -/
def secDict (s : String × String) : List (String × String) :=
  SECTION.zip [s.1, s.2]

/-- `Article.build()` (article.py lines 51-68): `dict(zip(ARTICLE,
metadata))`, the sections rendered as `{name, text}` dictionaries, and
`article["sections"] = sections`. -/
def Article.build (a : Article) : List (String × Obj) :=
  let article := (ARTICLE.zip a.metadata).map fun p => (p.1, Obj.prim p.2)
  let sections := a.sections.map secDict
  dictSet article "sections" (Obj.secs sections)

/-! ## Document Parser: `JAMA.parse` (jama.py lines 23-91) -/

/-- Tag aggregation (jama.py lines 61-66): every `subject` under every
`article-categories` element, markup-stripped, joined after the fixed
`"JAMA"` marker. -/
def tagsOf (entry : XmlNode) : String :=
  let tags := (findAll "article-categories" entry).flatMap fun cats =>
    findAll "subject" cats
  joinSep "; " ("JAMA" :: tags.map fun x => stripMarkup (textOf x))

/-- A positional argument of the `Article(...)` constructor call. -/
inductive CtorArg where
  | metadata (m : List Val)
  | sections (s : List (String × String))
  | source (v : Val)

/-- The Python call `Article(...)` with positional arguments.
`Article.__init__` (article.py line 17) declares three required parameters
`(metadata, sections, source)`; a call with any other number of positional
arguments raises `TypeError`. -/
def articleConstruct : List CtorArg → Except PyError Article
  | [.metadata m, .sections s, .source v] => .ok ⟨m, s, v⟩
  | _ => .error .typeError

/-- Processing of one `article` element: the body of the `for entry in
soup.find_all("article")` loop (jama.py lines 38-91), with each step in
source order so that the first raised exception is the one reported. -/
def processArticle (entry : XmlNode) (source : Option String) :
    Except PyError Article := do
  let reference := JAMA.get entry "article-id"
  let title := JAMA.get entry "article-title"
  let publishedRaw := JAMA.get entry "pub-date"
  let published ← dateStep publishedRaw
  let updated : Val := .vnone
  -- uid: `reference.encode("utf-8")` raises AttributeError when reference
  -- is None
  match reference with
  | none => .error .attributeError
  | some ref =>
    let uidv := deriveUid ref
    let journal := JAMA.get entry "journal-title"
    let (authors, affiliations) ←
      JAMA.authors (findAll "contrib-group" entry) (findAll "aff" entry)
    let tags := tagsOf entry
    let abstract := findFirst "abstract" entry
    let body := findFirst "body" entry
    let sections ← JAMA.sections title abstract body
    let metadata : List Val :=
      [.str uidv, Val.ofOpt source, (match published with
        | some d => .date d
        | none => .vnone), Val.ofOpt journal, .str authors, .str affiliations,
       .str "", Val.ofOpt title, .str tags, .str ref, updated]
    -- `yield Article(metadata, sections)`: two positional arguments
    articleConstruct [.metadata metadata, .sections sections]

/-- Generator semantics of the article loop: articles yielded before the
first uncaught exception, together with that exception; an exception ends
the iteration. -/
def parseGo (entries : List XmlNode) (source : Option String) :
    List Article × Option PyError :=
  match entries with
  | [] => ([], none)
  | e :: rest =>
    match processArticle e source with
    | .error err => ([], some err)
    | .ok a =>
      let r := parseGo rest source
      (a :: r.1, r.2)

/-- `JAMA.parse(stream, source)` (jama.py lines 23-91): iterate over every
`article` element of the parsed tree, in document order. -/
def JAMA.parse (soup : XmlNode) (source : Option String) :
    List Article × Option PyError :=
  parseGo (findAll "article" soup) source

/-! ## Concrete documents used by several claims -/

/-- A minimal well-formed article: reference `"123"`, a parseable
`pub-date`, an (empty) body element. -/
def artOk : XmlNode :=
  elemL "article" [elemL "article-id" [.text "123"],
                   elemL "pub-date" [.text "01-012020"],
                   elemL "body" []]

/-- The same article without its `article-id`. -/
def artNoRef : XmlNode :=
  elemL "article" [elemL "pub-date" [.text "01-012020"],
                   elemL "body" []]

/-- **C1** (code bug): `JAMA.parse` never yields an `Article`.  The claim
(and spec section 4.1) say one Article record is produced per `article`
element; but jama.py line 91 calls `Article(metadata, sections)` with two
positional arguments while `Article.__init__` (article.py line 17) requires
three — `(metadata, sections, source)` — so the yield raises `TypeError`
for every article, even a fully well-formed one: on a stream with a single
article carrying reference "123", iteration yields nothing and raises. -/
theorem c1_parse_never_yields :
    JAMA.parse (elemL "[document]" [artOk]) (some "pubmed")
      = ([], some PyError.typeError)
    ∧ processArticle artOk (some "pubmed") = .error PyError.typeError :=
  ⟨rfl, rfl⟩

/-- **C2** (counterexample): in a document whose first article lacks its
reference identifier and whose second article is well-formed, the failure
aborts the generator: the sibling article is *not* yielded (no `Article`
at all appears in the output), and the exception is `AttributeError`
(from `None.encode`), not a `MissingRequiredField`. -/
theorem c2_sibling_not_yielded :
    JAMA.parse (elemL "[document]" [artNoRef, artOk]) (some "pubmed")
      = ([], some PyError.attributeError) :=
  rfl

/-- **C2** (amended): for every article element whose `article-id` is
absent (and whose date step does not itself raise), constructing that
article fails with `AttributeError` at the uid derivation, the article is
absent from the output — and the exception ends the iteration, so no
sibling article after it is yielded either. -/
theorem c2_missing_reference_aborts (e : XmlNode) (es : List XmlNode)
    (src : Option String) (d : Option PDate)
    (href : JAMA.get e "article-id" = none)
    (hdate : dateStep (JAMA.get e "pub-date") = .ok d) :
    processArticle e src = .error PyError.attributeError
    ∧ parseGo (e :: es) src = ([], some PyError.attributeError) := by
  have h1 : processArticle e src = .error PyError.attributeError := by
    simp only [processArticle]
    rw [hdate, href]
    rfl
  refine ⟨h1, ?_⟩
  unfold parseGo
  rw [h1]

/-- Witness for `c2_missing_reference_aborts` at a concrete document. -/
theorem c2_missing_reference_aborts_witness :
    JAMA.get artNoRef "article-id" = none
    ∧ dateStep (JAMA.get artNoRef "pub-date") = .ok (some ⟨2020, 1, 1⟩)
    ∧ processArticle artNoRef (some "pubmed") = .error PyError.attributeError
    ∧ parseGo [artNoRef, artOk] (some "pubmed")
        = ([], some PyError.attributeError) :=
  ⟨rfl, rfl,
    (c2_missing_reference_aborts artNoRef [artOk] (some "pubmed")
      (some ⟨2020, 1, 1⟩) rfl rfl).1,
    (c2_missing_reference_aborts artNoRef [artOk] (some "pubmed")
      (some ⟨2020, 1, 1⟩) rfl rfl).2⟩

/-- **C3** (code bug): the date block is *not* best-effort.  Its handler
catches only `ArithmeticError` (jama.py line 48), but an absent raw string
makes `published[-4:]` raise `TypeError`, and a malformed string makes
`dateutil.parser.parse` raise `ValueError`; both propagate to the caller
instead of being replaced by `None` (the spec itself flags the wrong
exception kind as a latent defect in section 9). -/
theorem c3_date_errors_propagate :
    dateStep none = .error PyError.typeError
    ∧ dateStep (some "xx-xxxxxx") = .error PyError.valueError :=
  ⟨rfl, rfl⟩

/-! ## C7: the uid derivation -/

theorem toHex8_length (n : Nat) : (toHex8 n).length = 8 := by
  simp [toHex8]

theorem hexDigitChar_mem (n : Nat) :
    hexDigitChar n ∈ ("0123456789abcdef" : String).data := by
  unfold hexDigitChar
  have h : n % 16 < 16 := Nat.mod_lt _ (by norm_num)
  set m := n % 16 with hm
  interval_cases m <;> decide

theorem toHex8_mem {c : Char} {n : Nat} (h : c ∈ toHex8 n) :
    c ∈ ("0123456789abcdef" : String).data := by
  unfold toHex8 at h
  simp at h
  obtain ⟨i, _, rfl⟩ := h
  exact hexDigitChar_mem _

/-- **C7**: the uid derivation is a deterministic pure function of the
reference string — repeated derivations agree — and its value is a
fixed-length (40-character) lowercase hexadecimal digest; by definition it
is the SHA-1 digest of the UTF-8 encoding of the reference
(`deriveUid r = sha1Hex (utf8Encode r)`). -/
theorem c7_uid_deterministic_hex (r : String) :
    deriveUid r = deriveUid r
    ∧ deriveUid r = sha1Hex (utf8Encode r)
    ∧ (deriveUid r).length = 40
    ∧ ∀ c ∈ (deriveUid r).data, c ∈ ("0123456789abcdef" : String).data := by
  refine ⟨rfl, rfl, ?_, ?_⟩
  · show (deriveUid r).data.length = 40
    have h : (deriveUid r).data
        = toHex8 (sha1Words (utf8Encode r)).1
          ++ (toHex8 (sha1Words (utf8Encode r)).2.1
          ++ (toHex8 (sha1Words (utf8Encode r)).2.2.1
          ++ (toHex8 (sha1Words (utf8Encode r)).2.2.2.1
          ++ toHex8 (sha1Words (utf8Encode r)).2.2.2.2))) := by
      simp [deriveUid, sha1Hex]
    rw [h]
    simp [toHex8_length]
  · intro c hc
    have hc' : c ∈ toHex8 (sha1Words (utf8Encode r)).1
        ++ (toHex8 (sha1Words (utf8Encode r)).2.1
        ++ (toHex8 (sha1Words (utf8Encode r)).2.2.1
        ++ (toHex8 (sha1Words (utf8Encode r)).2.2.2.1
        ++ toHex8 (sha1Words (utf8Encode r)).2.2.2.2))) := by
      have h : (deriveUid r).data
          = toHex8 (sha1Words (utf8Encode r)).1
            ++ (toHex8 (sha1Words (utf8Encode r)).2.1
            ++ (toHex8 (sha1Words (utf8Encode r)).2.2.1
            ++ (toHex8 (sha1Words (utf8Encode r)).2.2.2.1
            ++ toHex8 (sha1Words (utf8Encode r)).2.2.2.2))) := by
        simp [deriveUid, sha1Hex]
      rw [← h]
      exact hc
    simp only [List.mem_append] at hc'
    rcases hc' with h | h | h | h | h <;> exact toHex8_mem h

/-! ## C10: `Article.build` -/

/-- **C10**: for every `Article` built from an 11-element metadata tuple
and a list of `(name, text)` section pairs, `build()` yields a dictionary
whose `"id"` entry equals `Article.uid()`, whose `"tags"` entry equals
`Article.tags()`, and whose `"sections"` entry lists the sections as
`{name, text}` dictionaries in the input order with the input contents. -/
theorem c10_build_schema (v0 v1 v2 v3 v4 v5 v6 v7 v8 v9 v10 : Val)
    (secs : List (String × String)) (src : Val) :
    List.lookup "id" (Article.mk [v0, v1, v2, v3, v4, v5, v6, v7, v8, v9, v10] secs src).build
      = Option.map Obj.prim (Article.mk [v0, v1, v2, v3, v4, v5, v6, v7, v8, v9, v10] secs src).uid
    ∧ List.lookup "tags" (Article.mk [v0, v1, v2, v3, v4, v5, v6, v7, v8, v9, v10] secs src).build
      = Option.map Obj.prim (Article.mk [v0, v1, v2, v3, v4, v5, v6, v7, v8, v9, v10] secs src).tags
    ∧ List.lookup "sections" (Article.mk [v0, v1, v2, v3, v4, v5, v6, v7, v8, v9, v10] secs src).build
      = some (Obj.secs (secs.map fun s => [("name", s.1), ("text", s.2)])) := by
  refine ⟨rfl, rfl, ?_⟩
  show List.lookup "sections"
      (dictSet ((ARTICLE.zip [v0, v1, v2, v3, v4, v5, v6, v7, v8, v9, v10]).map
        fun p => (p.1, Obj.prim p.2)) "sections" (Obj.secs (secs.map secDict)))
      = some (Obj.secs (secs.map fun s => [("name", s.1), ("text", s.2)]))
  have hsec : secs.map secDict = secs.map fun s => [("name", s.1), ("text", s.2)] := by
    apply List.map_congr_left
    intro s _
    rfl
  rw [hsec]
  rfl

/-! ## Helpers for abstract/body section claims (C4, C5) -/

/-- A section element with a title child followed by paragraph children. -/
def mkSec (t : String) (ps : List String) : XmlNode :=
  elemL "sec" (elemL "title" [.text t] :: ps.map fun p => elemL "p" [.text p])

/-- A section element with a title child followed by arbitrary child
sections. -/
def mkParent (t : String) (subs : List XmlNode) : XmlNode :=
  elemL "sec" (elemL "title" [.text t] :: subs)

theorem textOf_textElem (n s : String) : textOf (elemL n [.text s]) = s := by
  show textOfL (XmlForest.ofList [XmlNode.text s]) = s
  show s ++ textOfL XmlForest.nil = s
  show s ++ "" = s
  exact String.append_empty s

/-- No `tag` element occurs among paragraph nodes when `tag ≠ "p"`. -/
theorem findAllL_pnodes (tag : String) (htag : "p" ≠ tag) (ps : List String) :
    findAllL tag (XmlForest.ofList (ps.map fun p => elemL "p" [.text p])) = [] := by
  induction ps with
  | nil => rfl
  | cons p rest ih =>
    show findAllL tag (.cons (.elem "p" (XmlForest.ofList [XmlNode.text p])) _) = []
    rw [findAllL, if_neg htag]
    simpa [XmlForest.ofList, findAllL] using ih

/-- The children of `mkSec` contain no `sec` element. -/
theorem findAll_mkSec_inner (tag : String) (ht : "title" ≠ tag) (hp : "p" ≠ tag)
    (t : String) (ps : List String) :
    findAll tag (mkSec t ps) = [] := by
  show findAllL tag (XmlNode.childrenOf _) = []
  show findAllL tag (.cons (.elem "title" (XmlForest.ofList [XmlNode.text t]))
    (XmlForest.ofList (ps.map fun p => elemL "p" [.text p]))) = []
  rw [findAllL, if_neg ht]
  simp [XmlForest.ofList, findAllL, findAllL_pnodes tag hp ps]

/-- `find_all("p")` on `mkSec` returns exactly the paragraph children. -/
theorem findAll_p_mkSec (t : String) (ps : List String) :
    findAll "p" (mkSec t ps) = ps.map fun p => elemL "p" [.text p] := by
  show findAllL "p" (.cons (.elem "title" (XmlForest.ofList [XmlNode.text t]))
    (XmlForest.ofList (ps.map fun p => elemL "p" [.text p]))) = _
  rw [findAllL, if_neg (by decide : ¬("title" = "p"))]
  have hinner : findAllL "p" (XmlForest.ofList [XmlNode.text t]) = [] := rfl
  rw [hinner]
  have hmain : ∀ qs : List String,
      findAllL "p" (XmlForest.ofList (qs.map fun p => elemL "p" [.text p]))
        = qs.map fun p => elemL "p" [.text p] := by
    intro qs
    induction qs with
    | nil => rfl
    | cons q rest ih =>
      show findAllL "p" (.cons (.elem "p" (XmlForest.ofList [XmlNode.text q])) _) = _
      rw [findAllL, if_pos rfl]
      simpa [XmlForest.ofList, findAllL, elemL] using ih
  simp [hmain ps]

/-- `sec.title` on `mkSec` finds the title child. -/
theorem findFirst_title_mkSec (t : String) (ps : List String) :
    findFirst "title" (mkSec t ps) = some (elemL "title" [.text t]) := by
  unfold findFirst
  show (findAllL "title" (.cons (.elem "title" (XmlForest.ofList [XmlNode.text t]))
    (XmlForest.ofList (ps.map fun p => elemL "p" [.text p])))).head? = _
  rw [findAllL, if_pos rfl]
  have hinner : findAllL "title" (XmlForest.ofList [XmlNode.text t]) = [] := rfl
  rw [hinner]
  simp [elemL]

/-- The paragraph text of `mkSec` is the space-join of its paragraphs. -/
theorem paraText_mkSec (t : String) (ps : List String) :
    paraText (mkSec t ps) = joinSep " " ps := by
  unfold paraText
  rw [findAll_p_mkSec]
  congr 1
  rw [List.map_map]
  calc List.map (textOf ∘ fun p => elemL "p" [XmlNode.text p]) ps
      = List.map id ps := List.map_congr_left fun p _ => textOf_textElem "p" p
    _ = ps := List.map_id ps

/-- The abstract loop on a list of `mkSec` sections. -/
theorem abstractGo_mkSecs (secs : List (String × List String)) :
    abstractGo (secs.map fun x => mkSec x.1 x.2)
      = secs.map fun x => ("ABSTRACT\\" ++ x.1, joinSep " " x.2) := by
  induction secs with
  | nil => rfl
  | cons s rest ih =>
    show abstractGo (mkSec s.1 s.2 :: _) = _
    rw [abstractGo, findFirst_title_mkSec]
    show ("ABSTRACT\\" ++ textOf (elemL "title" [XmlNode.text s.1]),
        paraText (mkSec s.1 s.2)) :: abstractGo (List.map (fun x => mkSec x.1 x.2) rest) = _
    rw [textOf_textElem, paraText_mkSec]
    simpa using ih

/-- `find_all("sec")` on an abstract whose children are `mkSec` sections. -/
theorem findAll_sec_mkSecs (secs : List (String × List String)) :
    findAllL "sec" (XmlForest.ofList (secs.map fun x => mkSec x.1 x.2))
      = secs.map fun x => mkSec x.1 x.2 := by
  induction secs with
  | nil => rfl
  | cons s rest ih =>
    show findAllL "sec" (.cons (.elem "sec" _) _) = _
    rw [findAllL, if_pos rfl]
    have hinner : findAllL "sec"
        (XmlForest.ofList (elemL "title" [XmlNode.text s.1]
          :: List.map (fun p => elemL "p" [XmlNode.text p]) s.2)) = [] :=
      findAll_mkSec_inner "sec" (by decide) (by decide) s.1 s.2
    rw [hinner]
    simpa [mkSec, elemL] using ih

/-- No `sec` element occurs among plain text children. -/
theorem findAllL_textNodes (tag : String) (texts : List String) :
    findAllL tag (XmlForest.ofList (texts.map XmlNode.text)) = [] := by
  induction texts with
  | nil => rfl
  | cons s rest ih =>
    show findAllL tag (.cons (.text s) _) = []
    rw [findAllL]
    exact ih

/-- **C5**: abstract handling.  (i) When the abstract subtree has explicit
section children, `JAMA.sections` emits one entry per section, named
`"ABSTRACT\"` followed by the section's title (not uppercased), whose text
is the space-joined (not sentence-split) concatenation of that section's
paragraph texts.  (ii) When the abstract has no section children (raw
text), the abstract contributes zero entries.  Stated with no title and an
empty body element so that the section list is exactly the abstract's
contribution. -/
theorem c5_abstract_handling (secs : List (String × List String))
    (texts : List String) :
    JAMA.sections none (some (elemL "abstract" (secs.map fun x => mkSec x.1 x.2)))
        (some (elemL "body" []))
      = .ok (secs.map fun x => ("ABSTRACT\\" ++ x.1, joinSep " " x.2))
    ∧ JAMA.sections none (some (elemL "abstract" (texts.map XmlNode.text)))
        (some (elemL "body" []))
      = .ok [] := by
  constructor
  · show (do
      let bs ← bodySecs (some (elemL "body" []))
      .ok (([] : List (String × String))
        ++ abstractSecs (some (elemL "abstract" (secs.map fun x => mkSec x.1 x.2))) ++ bs) :
        Except PyError (List (String × String))) = _
    have hbody : bodySecs (some (elemL "body" [])) = .ok [] := rfl
    rw [hbody]
    show Except.ok ([] ++ abstractSecs _ ++ []) = _
    have hab : abstractSecs (some (elemL "abstract" (secs.map fun x => mkSec x.1 x.2)))
        = secs.map fun x => ("ABSTRACT\\" ++ x.1, joinSep " " x.2) := by
      show abstractGo (findAll "sec" _) = _
      show abstractGo (findAllL "sec" (XmlForest.ofList (secs.map fun x => mkSec x.1 x.2))) = _
      rw [findAll_sec_mkSecs, abstractGo_mkSecs]
    rw [hab]
    simp
  · show (do
      let bs ← bodySecs (some (elemL "body" []))
      .ok (([] : List (String × String))
        ++ abstractSecs (some (elemL "abstract" (texts.map XmlNode.text))) ++ bs) :
        Except PyError (List (String × String))) = _
    have hbody : bodySecs (some (elemL "body" [])) = .ok [] := rfl
    rw [hbody]
    have hab : abstractSecs (some (elemL "abstract" (texts.map XmlNode.text))) = [] := by
      show abstractGo (findAllL "sec" (XmlForest.ofList (texts.map XmlNode.text))) = []
      rw [findAllL_textNodes]
      rfl
    rw [hab]
    rfl

/-! ## C8, C9: the Author/Affiliation Parser -/

theorem pybind_ok {α β : Type} (a : α) (f : α → Except PyError β) :
    (bind (Except.ok a) f : Except PyError β) = f a := rfl

theorem pybind_error {α β : Type} (e : PyError) (f : α → Except PyError β) :
    (bind (Except.error e) f : Except PyError β) = .error e := rfl

/-- **C8**: given contributor entries A, B, C in that document order (the
members of the group's `contrib` descendants) whose display names are
`a`, `b`, `c`, `JAMA.authors` produces the authors string `"a; b; c"`:
names are appended in document order and joined with `"; "`, and each
display name comes from `contribName`, which joins the entry's
markup-stripped name parts with `", "`. -/
theorem c8_authors_document_order (g cA cB cC : XmlNode) (a b c : String)
    (hfind : findAll "contrib" g = [cA, cB, cC])
    (ha : contribName cA = .ok a) (hb : contribName cB = .ok b)
    (hc : contribName cC = .ok c) :
    JAMA.authors [g] [] = .ok (a ++ "; " ++ b ++ "; " ++ c, "") := by
  have h3 : contribNames.go [cC] = .ok [c] := by
    rw [contribNames.go, hc]
    rfl
  have h2 : contribNames.go [cB, cC] = .ok [b, c] := by
    rw [contribNames.go, hb, pybind_ok, h3]
    rfl
  have h1 : contribNames.go [cA, cB, cC] = .ok [a, b, c] := by
    rw [contribNames.go, ha, pybind_ok, h2]
    rfl
  have hnames : contribNames [g] = .ok [a, b, c] := by
    show contribNames.go ([g].flatMap fun g' => findAll "contrib" g') = _
    have hflat : ([g].flatMap fun g' => findAll "contrib" g') = [cA, cB, cC] := by
      simp [hfind]
    rw [hflat]
    exact h1
  unfold JAMA.authors
  rw [hnames, pybind_ok]
  show Except.ok (joinSep "; " [a, b, c], joinSep "; " ([] : List String)) = _
  simp [joinSep, String.append_assoc]

/-- Witness for `c8_authors_document_order`: three concrete contributors. -/
theorem c8_authors_document_order_witness :
    findAll "contrib" (elemL "contrib-group"
        [elemL "contrib" [elemL "name" [elemL "surname" [.text "Doe"],
           elemL "given-names" [.text "J"]]],
         elemL "contrib" [elemL "name" [elemL "surname" [.text "Poe"],
           elemL "given-names" [.text "K"]]],
         elemL "contrib" [elemL "name" [elemL "surname" [.text "Roe"],
           elemL "given-names" [.text "L"]]]])
      = [elemL "contrib" [elemL "name" [elemL "surname" [.text "Doe"],
           elemL "given-names" [.text "J"]]],
         elemL "contrib" [elemL "name" [elemL "surname" [.text "Poe"],
           elemL "given-names" [.text "K"]]],
         elemL "contrib" [elemL "name" [elemL "surname" [.text "Roe"],
           elemL "given-names" [.text "L"]]]]
    ∧ JAMA.authors [elemL "contrib-group"
        [elemL "contrib" [elemL "name" [elemL "surname" [.text "Doe"],
           elemL "given-names" [.text "J"]]],
         elemL "contrib" [elemL "name" [elemL "surname" [.text "Poe"],
           elemL "given-names" [.text "K"]]],
         elemL "contrib" [elemL "name" [elemL "surname" [.text "Roe"],
           elemL "given-names" [.text "L"]]]]] []
      = .ok ("Doe, J; Poe, K; Roe, L", "") := by
  refine ⟨rfl, ?_⟩
  have h := c8_authors_document_order
    (elemL "contrib-group"
        [elemL "contrib" [elemL "name" [elemL "surname" [.text "Doe"],
           elemL "given-names" [.text "J"]]],
         elemL "contrib" [elemL "name" [elemL "surname" [.text "Poe"],
           elemL "given-names" [.text "K"]]],
         elemL "contrib" [elemL "name" [elemL "surname" [.text "Roe"],
           elemL "given-names" [.text "L"]]]])
    (elemL "contrib" [elemL "name" [elemL "surname" [.text "Doe"],
       elemL "given-names" [.text "J"]]])
    (elemL "contrib" [elemL "name" [elemL "surname" [.text "Poe"],
       elemL "given-names" [.text "K"]]])
    (elemL "contrib" [elemL "name" [elemL "surname" [.text "Roe"],
       elemL "given-names" [.text "L"]]])
    "Doe, J" "Poe, K" "Roe, L" rfl rfl rfl rfl
  exact h.trans rfl

/-- Evaluating the affiliation contents list succeeds exactly on the
expected shape: a string child at index 1 for every element. -/
theorem affContents_ok (affs : List XmlNode) (ss : List String)
    (h : List.Forall₂ (fun a s => (XmlNode.childrenOf a).toList.get? 1
          = some (XmlNode.text s)) affs ss) :
    affContents affs = .ok (ss.map XmlNode.text) := by
  induction h with
  | nil => rfl
  | @cons a s affs' ss' hrel htail ih =>
    have hc : affContent a = .ok (XmlNode.text s) := by
      cases a with
      | text t => simp [XmlNode.childrenOf, XmlForest.toList] at hrel
      | elem n cs =>
        simp only [XmlNode.childrenOf] at hrel
        rw [affContent, hrel]
    rw [affContents, hc, pybind_ok, ih]
    rfl

theorem joinNodes_texts (ss : List String) :
    joinNodes (ss.map XmlNode.text) = .ok ss := by
  induction ss with
  | nil => rfl
  | cons s rest ih =>
    rw [List.map_cons, joinNodes, ih]
    rfl

/-- A structurally deficient affiliation element anywhere in the list makes
the contents evaluation raise. -/
theorem affContents_error (affs : List XmlNode) (a : XmlNode) (ha : a ∈ affs)
    (hshort : (XmlNode.childrenOf a).toList.length ≤ 1) :
    ∃ err, affContents affs = .error err := by
  induction affs with
  | nil => simp at ha
  | cons b rest ih =>
    rcases List.mem_cons.mp ha with rfl | hmem
    · have hfail : ∃ e, affContent a = .error e := by
        cases a with
        | text t => exact ⟨.attributeError, rfl⟩
        | elem n cs =>
          refine ⟨.indexError, ?_⟩
          have hnone : cs.toList.get? 1 = none := by
            rw [List.get?_eq_none]
            simpa [XmlNode.childrenOf] using hshort
          rw [affContent, hnone]
      obtain ⟨e, he⟩ := hfail
      refine ⟨e, ?_⟩
      rw [affContents, he, pybind_error]
    · rcases hb : affContent b with e | cb
      · refine ⟨e, ?_⟩
        rw [affContents, hb, pybind_error]
      · obtain ⟨e, he⟩ := ih hmem
        refine ⟨e, ?_⟩
        rw [affContents, hb, pybind_ok, he, pybind_error]

/-- **C9**: the affiliation text taken for each element is the content at
index 1 — the region right after the first (label) child — appended in
document order and joined with `"; "`; an affiliation lacking that
structure (nothing after the label) raises, a caller-visible failure, and
is never silently skipped. -/
theorem c9_affiliation_contract (groups affs : List XmlNode) (ns ss : List String)
    (hn : contribNames groups = .ok ns) :
    (List.Forall₂ (fun a s => (XmlNode.childrenOf a).toList.get? 1
        = some (XmlNode.text s)) affs ss →
      JAMA.authors groups affs = .ok (joinSep "; " ns, joinSep "; " ss))
    ∧ (∀ a ∈ affs, (XmlNode.childrenOf a).toList.length ≤ 1 →
      ∃ err, JAMA.authors groups affs = .error err) := by
  constructor
  · intro hrel
    unfold JAMA.authors
    rw [hn, pybind_ok, affContents_ok affs ss hrel, pybind_ok, joinNodes_texts,
      pybind_ok]
  · intro a ha hshort
    obtain ⟨e, he⟩ := affContents_error affs a ha hshort
    refine ⟨e, ?_⟩
    unfold JAMA.authors
    rw [hn, pybind_ok, he, pybind_error]

/-- Witness for `c9_affiliation_contract`: one well-formed affiliation
(label then text) and one with nothing after its label. -/
theorem c9_affiliation_contract_witness :
    contribNames [] = .ok []
    ∧ JAMA.authors [] [elemL "aff" [elemL "label" [.text "1"], .text "Dept X"]]
        = .ok ("", "Dept X")
    ∧ (∃ err, JAMA.authors []
        [elemL "aff" [elemL "label" [.text "1"]]] = .error err) := by
  refine ⟨rfl, ?_, ?_⟩
  · have h := (c9_affiliation_contract []
      [elemL "aff" [elemL "label" [.text "1"], .text "Dept X"]] [] ["Dept X"] rfl).1
      (List.Forall₂.cons rfl List.Forall₂.nil)
    exact h.trans rfl
  · exact (c9_affiliation_contract [] [elemL "aff" [elemL "label" [.text "1"]]]
      [] [] rfl).2 _ (List.mem_singleton_self _) (by decide)

/-! ## C4: section order -/

/-- One step of the subsection loop when both titles exist. -/
theorem subGo_cons (parent ss : XmlNode) (rest : List XmlNode) (ptE stE : XmlNode)
    (hpt : findFirst "title" parent = some ptE)
    (hst : findFirst "title" ss = some stE) :
    subGo parent (ss :: rest) = (do
      let more ← subGo parent rest
      .ok (((secSentences ss).map fun sent =>
        (pyUpper (textOf ptE) ++ "\\" ++ pyUpper (textOf stE), sent)) ++ more)) := by
  rw [subGo]
  cases hs : secSentences ss with
  | nil =>
    simp only [List.map_nil, List.nil_append]
    cases hrest : subGo parent rest with
    | error e => rw [pybind_error]
    | ok more => rw [pybind_ok]
  | cons x xs =>
    simp only [hpt, hst]

/-- One step of the body loop on a flat section (no nested sections) whose
title exists. -/
theorem bodyGo_flat_cons (s : XmlNode) (rest : List XmlNode) (tE : XmlNode)
    (hsub : findAll "sec" s = [])
    (ht : findFirst "title" s = some tE) :
    bodyGo (s :: rest) = (do
      let more ← bodyGo rest
      .ok (((secSentences s).map fun sent => (pyUpper (textOf tE), sent)) ++ more)) := by
  rw [bodyGo]
  simp only [hsub]
  cases hs : secSentences s with
  | nil =>
    simp only [List.map_nil, List.nil_append]
    cases hrest : bodyGo rest with
    | error e => rw [pybind_error]
    | ok more => rw [pybind_ok]
  | cons x xs =>
    simp only [ht]

/-- One step of the body loop on a section with nested sections. -/
theorem bodyGo_parent_cons (s : XmlNode) (rest : List XmlNode) (sub1 : XmlNode)
    (subrest : List XmlNode) (hsub : findAll "sec" s = sub1 :: subrest) :
    bodyGo (s :: rest) = (do
      let entries ← subGo s (sub1 :: subrest)
      let more ← bodyGo rest
      .ok (entries ++ more)) := by
  rw [bodyGo]
  simp only [hsub]

/-- **C4**: for every article with a (nonempty) title, an abstract with two
section children, and a body with one flat top-level section followed by
one top-level section containing two subsections, `JAMA.sections` returns
exactly: the TITLE entry, the two `ABSTRACT\`-entries in document order,
the flat section's sentence entries, the first subsection's sentence
entries, then the second subsection's sentence entries. -/
theorem c4_section_order (t a1 a2 f pt s1 s2 : String)
    (ap1 ap2 fp sp1 sp2 : List String) (ht : t ≠ "") :
    JAMA.sections (some t)
      (some (elemL "abstract" [mkSec a1 ap1, mkSec a2 ap2]))
      (some (elemL "body" [mkSec f fp, mkParent pt [mkSec s1 sp1, mkSec s2 sp2]]))
    = .ok ([("TITLE", t)]
      ++ [("ABSTRACT\\" ++ a1, joinSep " " ap1), ("ABSTRACT\\" ++ a2, joinSep " " ap2)]
      ++ ((sentTokenize (Text.transform (joinSep " " fp))).map fun x => (pyUpper f, x))
      ++ ((sentTokenize (Text.transform (joinSep " " sp1))).map fun x =>
            (pyUpper pt ++ "\\" ++ pyUpper s1, x))
      ++ ((sentTokenize (Text.transform (joinSep " " sp2))).map fun x =>
            (pyUpper pt ++ "\\" ++ pyUpper s2, x))) := by
  have hss : ∀ (tt : String) (ps : List String),
      secSentences (mkSec tt ps) = sentTokenize (Text.transform (joinSep " " ps)) := by
    intro tt ps
    unfold secSentences
    rw [paraText_mkSec]
  -- abstract contribution
  have hab : abstractSecs (some (elemL "abstract" [mkSec a1 ap1, mkSec a2 ap2]))
      = [("ABSTRACT\\" ++ a1, joinSep " " ap1), ("ABSTRACT\\" ++ a2, joinSep " " ap2)] := by
    show abstractGo (findAllL "sec" (XmlForest.ofList
      (([(a1, ap1), (a2, ap2)] : List (String × List String)).map
        fun x => mkSec x.1 x.2))) = _
    rw [findAll_sec_mkSecs, abstractGo_mkSecs]
    rfl
  -- the two direct body children
  have htop : findAllTop "sec"
      (elemL "body" [mkSec f fp, mkParent pt [mkSec s1 sp1, mkSec s2 sp2]])
      = [mkSec f fp, mkParent pt [mkSec s1 sp1, mkSec s2 sp2]] := rfl
  -- the parent section's nested sections
  have hsubs : findAll "sec" (mkParent pt [mkSec s1 sp1, mkSec s2 sp2])
      = [mkSec s1 sp1, mkSec s2 sp2] := by
    show findAllL "sec" (.cons (.elem "title" (XmlForest.ofList [XmlNode.text pt]))
      (XmlForest.ofList (([(s1, sp1), (s2, sp2)] : List (String × List String)).map
        fun x => mkSec x.1 x.2))) = _
    rw [findAllL, if_neg (by decide : ¬("title" = "sec"))]
    have h0 : findAllL "sec" (XmlForest.ofList [XmlNode.text pt]) = [] := rfl
    rw [h0, findAll_sec_mkSecs]
    rfl
  have hptitle : findFirst "title" (mkParent pt [mkSec s1 sp1, mkSec s2 sp2])
      = some (elemL "title" [.text pt]) := rfl
  -- subsection loop
  have hsub2 : subGo (mkParent pt [mkSec s1 sp1, mkSec s2 sp2]) [mkSec s2 sp2]
      = .ok ((sentTokenize (Text.transform (joinSep " " sp2))).map fun x =>
          (pyUpper pt ++ "\\" ++ pyUpper s2, x)) := by
    rw [subGo_cons _ _ _ _ _ hptitle (findFirst_title_mkSec s2 sp2)]
    show Except.ok (((secSentences (mkSec s2 sp2)).map fun sent =>
      (pyUpper (textOf (elemL "title" [.text pt])) ++ "\\"
        ++ pyUpper (textOf (elemL "title" [.text s2])), sent)) ++ []) = _
    rw [textOf_textElem, textOf_textElem, hss, List.append_nil]
  have hsub12 : subGo (mkParent pt [mkSec s1 sp1, mkSec s2 sp2])
        [mkSec s1 sp1, mkSec s2 sp2]
      = .ok (((sentTokenize (Text.transform (joinSep " " sp1))).map fun x =>
            (pyUpper pt ++ "\\" ++ pyUpper s1, x))
          ++ ((sentTokenize (Text.transform (joinSep " " sp2))).map fun x =>
            (pyUpper pt ++ "\\" ++ pyUpper s2, x))) := by
    rw [subGo_cons _ _ _ _ _ hptitle (findFirst_title_mkSec s1 sp1), hsub2, pybind_ok]
    rw [textOf_textElem, textOf_textElem, hss]
  -- body loop
  have hbody2 : bodyGo [mkParent pt [mkSec s1 sp1, mkSec s2 sp2]]
      = .ok (((sentTokenize (Text.transform (joinSep " " sp1))).map fun x =>
            (pyUpper pt ++ "\\" ++ pyUpper s1, x))
          ++ ((sentTokenize (Text.transform (joinSep " " sp2))).map fun x =>
            (pyUpper pt ++ "\\" ++ pyUpper s2, x))) := by
    rw [bodyGo_parent_cons _ _ _ _ hsubs, hsub12, pybind_ok]
    show Except.ok (_ ++ []) = _
    rw [List.append_nil]
  have hbody : bodyGo [mkSec f fp, mkParent pt [mkSec s1 sp1, mkSec s2 sp2]]
      = .ok (((sentTokenize (Text.transform (joinSep " " fp))).map fun x =>
            (pyUpper f, x))
          ++ (((sentTokenize (Text.transform (joinSep " " sp1))).map fun x =>
            (pyUpper pt ++ "\\" ++ pyUpper s1, x))
          ++ ((sentTokenize (Text.transform (joinSep " " sp2))).map fun x =>
            (pyUpper pt ++ "\\" ++ pyUpper s2, x)))) := by
    rw [bodyGo_flat_cons _ _ _
      (findAll_mkSec_inner "sec" (by decide) (by decide) f fp)
      (findFirst_title_mkSec f fp), hbody2, pybind_ok]
    rw [textOf_textElem, hss]
  -- assemble
  show (do
    let bs ← bodySecs (some (elemL "body"
      [mkSec f fp, mkParent pt [mkSec s1 sp1, mkSec s2 sp2]]))
    .ok ((if t = "" then [] else [("TITLE", t)])
      ++ abstractSecs (some (elemL "abstract" [mkSec a1 ap1, mkSec a2 ap2])) ++ bs) :
    Except PyError (List (String × String))) = _
  have hbs : bodySecs (some (elemL "body"
      [mkSec f fp, mkParent pt [mkSec s1 sp1, mkSec s2 sp2]]))
      = bodyGo [mkSec f fp, mkParent pt [mkSec s1 sp1, mkSec s2 sp2]] := by
    show bodyGo (findAllTop "sec" _) = _
    rw [htop]
  rw [hbs, hbody, pybind_ok, if_neg ht, hab]
  simp [List.append_assoc]

/-- Witness for `c4_section_order` at a concrete article. -/
theorem c4_section_order_witness :
    ("Study of X" : String) ≠ ""
    ∧ JAMA.sections (some "Study of X")
        (some (elemL "abstract"
          [mkSec "Background" ["BG one."], mkSec "Methods" ["M one."]]))
        (some (elemL "body"
          [mkSec "Results" ["Sentence one. Sentence two.", "Sentence three."],
           mkParent "Discussion" [mkSec "Limits" ["L one."], mkSec "Future" ["F one."]]]))
      = .ok [("TITLE", "Study of X"),
             ("ABSTRACT\\Background", "BG one."), ("ABSTRACT\\Methods", "M one."),
             ("RESULTS", "Sentence one."), ("RESULTS", "Sentence two."),
             ("RESULTS", "Sentence three."),
             ("DISCUSSION\\LIMITS", "L one."), ("DISCUSSION\\FUTURE", "F one.")] := by
  refine ⟨by decide, ?_⟩
  have h := c4_section_order "Study of X" "Background" "Methods" "Results"
    "Discussion" "Limits" "Future" ["BG one."] ["M one."]
    ["Sentence one. Sentence two.", "Sentence three."] ["L one."] ["F one."]
    (by decide)
  exact h.trans (by rfl)
